import Mathlib

/-!
Verification of the multi-agent blackboard coordination engine.

The embedding below translates the coordination core of the TypeScript
source: the append-only message board, the per-kind blackboard index, the
per-agent trigger functions, the pure content of each agent's `act`, and
the coordinator's cycle loop with iteration budgets and idle-cycle
termination.  The external text-generation service is modelled as an
oracle (`GenOracle`) supplying the list of streamed content fragments an
agent receives on each of its act invocations; `createdAt` timestamps are
omitted as no property depends on them.
-/

namespace MultiAgent

/-- `MAX_GLOBAL_CYCLES = 20` from the source. -/
def MAX_GLOBAL_CYCLES : Nat := 20

/-- `MAX_AGENT_ITERATIONS = 3` from the source. -/
def MAX_AGENT_ITERATIONS : Nat := 3

/-- `type AgentName = 'uiux' | 'frontend' | 'backend'`. -/
inductive AgentName
  | uiux
  | frontend
  | backend
deriving DecidableEq

/-- `type MessageKind = 'feature-request' | 'uiux-spec' | 'frontend-plan' | 'backend-plan'`. -/
inductive MessageKind
  | featureRequest
  | uiuxSpec
  | frontendPlan
  | backendPlan
deriving DecidableEq

/-- `author: 'user' | AgentName`. -/
inductive MsgAuthor
  | user
  | byAgent (a : AgentName)
deriving DecidableEq

/-- `interface BoardMessage` (the `createdAt: Date` field is omitted). -/
structure BoardMessage where
  id : Nat
  author : MsgAuthor
  kind : MessageKind
  content : String
deriving DecidableEq

/-- JS `String.prototype.trim()`, modelled on the character list: strip
leading and trailing whitespace characters. -/
def jsTrim (s : String) : String :=
  String.mk (((s.data.dropWhile Char.isWhitespace).reverse.dropWhile
    Char.isWhitespace).reverse)

def splitLinesAux : List Char → List Char → List String
  | [], acc => [String.mk acc.reverse]
  | c :: cs, acc =>
    if c = '\n' then String.mk acc.reverse :: splitLinesAux cs []
    else splitLinesAux cs (c :: acc)

/-- JS `content.split('\n')`: split on every newline, keeping empty
pieces (`''.split('\n')` is `['']`). -/
def jsSplitLines (s : String) : List String := splitLinesAux s.data []

/-- JS `s.slice(0, n)` for `0 ≤ n`: the first `n` characters. -/
def jsTake (s : String) (n : Nat) : String := String.mk (s.data.take n)

/-- `summarizeContent(content, maxLength = 200)`: first non-blank line,
trimmed, truncated to `maxLength` with a `"..."` marker.  The JS
`slice(0, maxLength - 3)` coincides with `jsTake` whenever
`3 ≤ maxLength`, which covers the only configuration the source uses
(`maxLength = 200`). -/
def summarizeContent (content : String) (maxLength : Nat) : String :=
  let firstLine :=
    ((jsSplitLines content).find? fun line => decide (0 < (jsTrim line).length)).getD ""
  let trimmed := jsTrim firstLine
  if trimmed.length ≤ maxLength then trimmed
  else jsTake trimmed (maxLength - 3) ++ "..."

/-- `interface BlackboardState`: latest message of each kind, all optional. -/
structure BlackboardState where
  featureRequest : Option BoardMessage
  uiuxSpec : Option BoardMessage
  frontendPlan : Option BoardMessage
  backendPlan : Option BoardMessage
deriving DecidableEq

def emptyBlackboard : BlackboardState := ⟨none, none, none, none⟩

/-- Read the blackboard field that caches the given message kind. -/
def lookupKind (bb : BlackboardState) : MessageKind → Option BoardMessage
  | .featureRequest => bb.featureRequest
  | .uiuxSpec => bb.uiuxSpec
  | .frontendPlan => bb.frontendPlan
  | .backendPlan => bb.backendPlan

/-- The coordinator's index-update block: the `if/else if` chain on
`newMessage.kind` stores the message under its kind unconditionally;
there is no branch for `feature-request`, which leaves the blackboard
unchanged. -/
def blackboardUpdate (bb : BlackboardState) (m : BoardMessage) : BlackboardState :=
  match m.kind with
  | .uiuxSpec => { bb with uiuxSpec := some m }
  | .frontendPlan => { bb with frontendPlan := some m }
  | .backendPlan => { bb with backendPlan := some m }
  | .featureRequest => bb

/-- The mutable runtime fields of an `Agent` object
(`maxIterations`, `iterations`, `lastSummary`). -/
structure AgentState where
  iterations : Nat
  maxIterations : Nat
  lastSummary : Option String
deriving DecidableEq

/-- Each agent's `findTrigger(board, blackboard)`, reading
`this.iterations` / `this.maxIterations` from `self`. -/
def findTrigger : AgentName → List BoardMessage → BlackboardState → AgentState →
    Option BoardMessage
  | .uiux, board, blackboard, self =>
    let feature :=
      match blackboard.featureRequest with
      | some f => some f
      | none => board.reverse.find? fun m => decide (m.kind = MessageKind.featureRequest)
    match feature with
    | none => none
    | some f =>
      let mySpecs := board.filter fun m =>
        decide (m.author = MsgAuthor.byAgent AgentName.uiux ∧ m.kind = MessageKind.uiuxSpec)
      if mySpecs.length = 0 then some f
      else if self.maxIterations ≤ self.iterations then none
      else mySpecs.getLast?
  | .frontend, board, blackboard, self =>
    let uiuxSpec :=
      match blackboard.uiuxSpec with
      | some s => some s
      | none => board.reverse.find? fun m => decide (m.kind = MessageKind.uiuxSpec)
    match uiuxSpec with
    | none => none
    | some s =>
      let myPlans := board.filter fun m =>
        decide (m.author = MsgAuthor.byAgent AgentName.frontend ∧
          m.kind = MessageKind.frontendPlan)
      if myPlans.length = 0 then some s
      else if self.maxIterations ≤ self.iterations then none
      else myPlans.getLast?
  | .backend, board, blackboard, self =>
    let uiuxSpec :=
      match blackboard.uiuxSpec with
      | some s => some s
      | none => board.reverse.find? fun m => decide (m.kind = MessageKind.uiuxSpec)
    match uiuxSpec with
    | none => none
    | some s =>
      let myPlans := board.filter fun m =>
        decide (m.author = MsgAuthor.byAgent AgentName.backend ∧
          m.kind = MessageKind.backendPlan)
      if myPlans.length = 0 then some s
      else if self.maxIterations ≤ self.iterations then none
      else myPlans.getLast?

/-- Each agent's designated output kind. -/
def outputKind : AgentName → MessageKind
  | .uiux => MessageKind.uiuxSpec
  | .frontend => MessageKind.frontendPlan
  | .backend => MessageKind.backendPlan

/-- The external generation collaborator, as an oracle: for an agent and
its 0-based act index, the finite list of streamed text fragments. -/
def GenOracle := AgentName → Nat → List String

/-- The act streaming loop `let s = ''; for await (delta) s += delta`:
fragments are appended to an accumulator in arrival order. -/
def concatFragments (fragments : List String) : String :=
  fragments.foldl (fun acc delta => acc ++ delta) ""

/-- The whole mutable state of one `runMultiAgentPipeline` invocation,
together with the process-wide `nextId` counter and the agents' mutable
runtime fields (which in the source are module-level objects). -/
structure PipelineState where
  board : List BoardMessage
  blackboard : BlackboardState
  nextId : Nat
  uiuxState : AgentState
  frontendState : AgentState
  backendState : AgentState
  idleCycles : Nat
deriving DecidableEq

def agentStateOf (st : PipelineState) : AgentName → AgentState
  | .uiux => st.uiuxState
  | .frontend => st.frontendState
  | .backend => st.backendState

def setAgentState (st : PipelineState) : AgentName → AgentState → PipelineState
  | .uiux, ag => { st with uiuxState := ag }
  | .frontend, ag => { st with frontendState := ag }
  | .backend, ag => { st with backendState := ag }

/-- One agent's turn inside the coordinator's per-cycle loop: evaluate
`findTrigger`, skip on `null` trigger or exhausted budget, otherwise
increment `iterations`, run `act` (build the new message from the
streamed fragments, record the summary), push the message and update
the blackboard.  Returns the new state and, when the agent acted, the
`(trigger, newMessage)` pair. -/
def agentTurn (gen : GenOracle) (st : PipelineState) (a : AgentName) :
    PipelineState × Option (BoardMessage × BoardMessage) :=
  let self := agentStateOf st a
  match findTrigger a st.board st.blackboard self with
  | none => (st, none)
  | some trigger =>
    if self.maxIterations ≤ self.iterations then (st, none)
    else
      let raw := concatFragments (gen a self.iterations)
      let newMessage : BoardMessage :=
        { id := st.nextId, author := MsgAuthor.byAgent a, kind := outputKind a,
          content := jsTrim raw }
      let st1 : PipelineState :=
        { st with
          nextId := st.nextId + 1
          board := st.board ++ [newMessage]
          blackboard := blackboardUpdate st.blackboard newMessage }
      let st2 := setAgentState st1 a
        { iterations := self.iterations + 1, maxIterations := self.maxIterations,
          lastSummary := some (summarizeContent raw 200) }
      (st2, some (trigger, newMessage))

/-- An acting record: which agent acted, on which trigger, producing
which message. -/
abbrev TurnEvent := AgentName × BoardMessage × BoardMessage

def optEvent (a : AgentName) : Option (BoardMessage × BoardMessage) → List TurnEvent
  | none => []
  | some (t, m) => [(a, t, m)]

/-- One coordinator cycle: the `for (const agent of agents)` loop over the
fixed order `[uiuxAgent, frontendAgent, backendAgent]`, unrolled.  The
source's `progressedThisCycle` flag equals `events ≠ []`. -/
def runCycle (gen : GenOracle) (st : PipelineState) : PipelineState × List TurnEvent :=
  let r1 := agentTurn gen st AgentName.uiux
  let r2 := agentTurn gen r1.1 AgentName.frontend
  let r3 := agentTurn gen r2.1 AgentName.backend
  (r3.1, optEvent AgentName.uiux r1.2 ++ optEvent AgentName.frontend r2.2 ++
    optEvent AgentName.backend r3.2)

/-- Outcome of the cycle loop: final state, number of cycles executed,
and whether the loop exited through the idle-threshold `break`. -/
structure RunResult where
  state : PipelineState
  cyclesRun : Nat
  idleStopped : Bool
deriving DecidableEq

/-- The coordinator's `for (cycle = 1..MAX_GLOBAL_CYCLES)` loop with the
idle-cycle bookkeeping: a cycle with no activity increments `idleCycles`
and the loop breaks once it reaches 3; an active cycle resets it. -/
def runCycles (gen : GenOracle) : Nat → PipelineState → RunResult
  | 0, st => ⟨st, 0, false⟩
  | n + 1, st =>
    let c := runCycle gen st
    if c.2.isEmpty then
      let st2 := { c.1 with idleCycles := c.1.idleCycles + 1 }
      if 3 ≤ st2.idleCycles then ⟨st2, 1, true⟩
      else
        let r := runCycles gen n st2
        ⟨r.state, r.cyclesRun + 1, r.idleStopped⟩
    else
      let r := runCycles gen n { c.1 with idleCycles := 0 }
      ⟨r.state, r.cyclesRun + 1, r.idleStopped⟩

/-- The module-level mutable state that survives between pipeline runs:
the `nextId` counter and the three agent objects' runtime fields. -/
structure ProcessState where
  nextId : Nat
  uiuxState : AgentState
  frontendState : AgentState
  backendState : AgentState
deriving DecidableEq

def psAgentStateOf (ps : ProcessState) : AgentName → AgentState
  | .uiux => ps.uiuxState
  | .frontend => ps.frontendState
  | .backend => ps.backendState

/-- Process start: `nextId = 1`, every agent at `iterations = 0` with
budget `MAX_AGENT_ITERATIONS` and no summary. -/
def initialProcessState : ProcessState :=
  ⟨1, ⟨0, MAX_AGENT_ITERATIONS, none⟩, ⟨0, MAX_AGENT_ITERATIONS, none⟩,
    ⟨0, MAX_AGENT_ITERATIONS, none⟩⟩

/-- Seeding a run: a fresh empty board receives the trimmed feature
request as its first message and the blackboard caches it.  The agents'
runtime fields and the id counter are carried over from the ambient
process state — the source has no per-run reset. -/
def seedState (ps : ProcessState) (initialRequest : String) : PipelineState :=
  let featureMessage : BoardMessage :=
    { id := ps.nextId, author := MsgAuthor.user, kind := MessageKind.featureRequest,
      content := jsTrim initialRequest }
  { board := [featureMessage]
    blackboard := { emptyBlackboard with featureRequest := some featureMessage }
    nextId := ps.nextId + 1
    uiuxState := ps.uiuxState
    frontendState := ps.frontendState
    backendState := ps.backendState
    idleCycles := 0 }

/-- `runMultiAgentPipeline(initialRequest)` for one run, parametrised by
the generation oracle and the ambient process state. -/
def runMultiAgentPipeline (gen : GenOracle) (ps : ProcessState) (initialRequest : String) :
    RunResult :=
  runCycles gen MAX_GLOBAL_CYCLES (seedState ps initialRequest)

/-- The module-level state left behind by a finished run, as picked up by
the next run started in the same process. -/
def processStateAfter (st : PipelineState) : ProcessState :=
  ⟨st.nextId, st.uiuxState, st.frontendState, st.backendState⟩

/-! ### Specification-side definitions -/

/-- All messages of one kind currently on the board. -/
def messagesOfKind (board : List BoardMessage) (k : MessageKind) : List BoardMessage :=
  board.filter fun m => decide (m.kind = k)

/-- Keep whichever of two candidates has the larger id (left-biased on ties). -/
def pickNewer (best : Option BoardMessage) (m : BoardMessage) : Option BoardMessage :=
  match best with
  | none => some m
  | some b => if b.id < m.id then some m else some b

/-- The highest-id message of one kind on the board, by a full scan. -/
def maxIdMessage (board : List BoardMessage) (k : MessageKind) : Option BoardMessage :=
  (messagesOfKind board k).foldl pickNewer none

/-- The consumer roles' output kinds. -/
def planKind : MessageKind → Bool
  | .frontendPlan => true
  | .backendPlan => true
  | _ => false

/-- Every consumer-plan message on the board has a uiux-spec message at a
strictly smaller position. -/
def depOrdered (board : List BoardMessage) : Prop :=
  ∀ i : Fin board.length, planKind (board.get i).kind = true →
    ∃ j : Fin board.length, (j : Nat) < (i : Nat) ∧
      (board.get j).kind = MessageKind.uiuxSpec

/-- Number of board messages authored by an agent. -/
def countAuthor (board : List BoardMessage) (a : AgentName) : Nat :=
  (board.filter fun m => decide (m.author = MsgAuthor.byAgent a)).length

/-- States visited during one pipeline run: the freshly seeded state and
everything obtainable from it by agent turns and idle-counter
bookkeeping.  Every intermediate state of `runMultiAgentPipeline` is of
this shape. -/
inductive Reach (gen : GenOracle) (ps : ProcessState) (req : String) : PipelineState → Prop
  | seed : Reach gen ps req (seedState ps req)
  | turn (st : PipelineState) (a : AgentName) :
      Reach gen ps req st → Reach gen ps req (agentTurn gen st a).1
  | idle (st : PipelineState) (n : Nat) :
      Reach gen ps req st → Reach gen ps req { st with idleCycles := n }

/-- The master invariant of one run, relative to the process state the
run was seeded from: blackboard/board index consistency, id freshness,
dependency ordering, authored-message counts bounded by iteration
counters, and the iteration counters' relation to the seed. -/
def GoodState (ps : ProcessState) (st : PipelineState) : Prop :=
  (∀ k, lookupKind st.blackboard k = maxIdMessage st.board k) ∧
  (∀ m ∈ st.board, m.id < st.nextId) ∧
  depOrdered st.board ∧
  (∀ a, countAuthor st.board a ≤ (agentStateOf st a).iterations) ∧
  (∀ a, (agentStateOf st a).maxIterations = (psAgentStateOf ps a).maxIterations) ∧
  (∀ a, (psAgentStateOf ps a).iterations ≤ (agentStateOf st a).iterations) ∧
  (∀ a, (agentStateOf st a).iterations ≤
    max (psAgentStateOf ps a).iterations (psAgentStateOf ps a).maxIterations)

/-- The message an agent's act produces from state `st` (the acting
branch of `agentTurn`, named for the proofs). -/
def actMessage (gen : GenOracle) (st : PipelineState) (a : AgentName) : BoardMessage :=
  { id := st.nextId, author := MsgAuthor.byAgent a, kind := outputKind a,
    content := jsTrim (concatFragments (gen a (agentStateOf st a).iterations)) }

/-- The state after an agent acted (the acting branch of `agentTurn`,
named for the proofs). -/
def actedState (gen : GenOracle) (st : PipelineState) (a : AgentName) : PipelineState :=
  setAgentState
    { st with
      nextId := st.nextId + 1
      board := st.board ++ [actMessage gen st a]
      blackboard := blackboardUpdate st.blackboard (actMessage gen st a) } a
    { iterations := (agentStateOf st a).iterations + 1
      maxIterations := (agentStateOf st a).maxIterations
      lastSummary :=
        some (summarizeContent (concatFragments (gen a (agentStateOf st a).iterations)) 200) }

/-! ### Concrete fixtures used by witnesses and counterexamples -/

/-- A generation oracle that streams no fragments at all. -/
def genEmpty : GenOracle := fun _ _ => []

/-- The first pipeline run of a fresh process under `genEmpty`. -/
def firstRun : RunResult := runMultiAgentPipeline genEmpty initialProcessState "one"

/-- The seed of a second run started in the same process. -/
def secondSeed : PipelineState := seedState (processStateAfter firstRun.state) "two"

/-- A blackboard whose uiux-spec slot caches a message with id 5. -/
def bbCached : BlackboardState :=
  ⟨none, some ⟨5, MsgAuthor.byAgent AgentName.uiux, MessageKind.uiuxSpec, "old"⟩, none, none⟩

/-- A uiux-spec message with the smaller id 3. -/
def staleSpec : BoardMessage :=
  ⟨3, MsgAuthor.byAgent AgentName.uiux, MessageKind.uiuxSpec, "new"⟩

/-- A process state whose agents all have iteration budget 0. -/
def psZeroBudget : ProcessState := ⟨1, ⟨0, 0, none⟩, ⟨0, 0, none⟩, ⟨0, 0, none⟩⟩

/-- The seeded feature-request message of the `firstRun` fixture. -/
def m0W : BoardMessage := ⟨1, MsgAuthor.user, MessageKind.featureRequest, "one"⟩

/-- The uiux-spec produced in the first cycle of the `firstRun` fixture. -/
def sW : BoardMessage := ⟨2, MsgAuthor.byAgent AgentName.uiux, MessageKind.uiuxSpec, ""⟩

/-- The frontend-plan produced in the first cycle of the `firstRun` fixture. -/
def fW : BoardMessage :=
  ⟨3, MsgAuthor.byAgent AgentName.frontend, MessageKind.frontendPlan, ""⟩

/-- The backend-plan produced in the first cycle of the `firstRun` fixture. -/
def bW : BoardMessage :=
  ⟨4, MsgAuthor.byAgent AgentName.backend, MessageKind.backendPlan, ""⟩

/-- A 201-character line, longer than the default summary bound of 200. -/
def longLine : String := String.mk (List.replicate 201 'a')

/-- One line of the end-of-run `[agent summaries]` report. -/
inductive ReportLine
  | noOutput
  | info (iterations : Nat) (lastKind : MessageKind) (summary : String)
deriving DecidableEq

/-- JS truthiness of `agent.lastSummary`: `undefined` and the empty
string are both falsy. -/
def summaryTruthy : Option String → Bool
  | none => false
  | some s => !s.isEmpty

/-- The per-agent summary block at the end of `runMultiAgentPipeline`:
count the agent's messages on the board and print `no output` when the
count is zero or `!agent.lastSummary`. -/
def agentReport (board : List BoardMessage) (a : AgentName) (self : AgentState) :
    ReportLine :=
  let agentMessages := board.filter fun m => decide (m.author = MsgAuthor.byAgent a)
  let iterations := agentMessages.length
  if iterations == 0 || !summaryTruthy self.lastSummary then ReportLine.noOutput
  else
    match agentMessages.getLast? with
    | some last => ReportLine.info iterations last.kind (self.lastSummary.getD "")
    | none => ReportLine.noOutput

/-! ### Helper lemmas: record projections -/

@[simp] theorem setAgentState_board (st : PipelineState) (a : AgentName) (ag : AgentState) :
    (setAgentState st a ag).board = st.board := by cases a <;> rfl

@[simp] theorem setAgentState_blackboard (st : PipelineState) (a : AgentName) (ag : AgentState) :
    (setAgentState st a ag).blackboard = st.blackboard := by cases a <;> rfl

@[simp] theorem setAgentState_nextId (st : PipelineState) (a : AgentName) (ag : AgentState) :
    (setAgentState st a ag).nextId = st.nextId := by cases a <;> rfl

@[simp] theorem setAgentState_idleCycles (st : PipelineState) (a : AgentName) (ag : AgentState) :
    (setAgentState st a ag).idleCycles = st.idleCycles := by cases a <;> rfl

@[simp] theorem agentStateOf_set_same (st : PipelineState) (a : AgentName) (ag : AgentState) :
    agentStateOf (setAgentState st a ag) a = ag := by cases a <;> rfl

theorem agentStateOf_set_other (st : PipelineState) (a a' : AgentName) (ag : AgentState)
    (h : a' ≠ a) : agentStateOf (setAgentState st a ag) a' = agentStateOf st a' := by
  cases a <;> cases a' <;> first | rfl | exact absurd rfl h

@[simp] theorem agentStateOf_core_update (st : PipelineState) (b : List BoardMessage)
    (bb : BlackboardState) (n : Nat) (a : AgentName) :
    agentStateOf { st with board := b, blackboard := bb, nextId := n } a =
      agentStateOf st a := by cases a <;> rfl

@[simp] theorem agentStateOf_idle_update (st : PipelineState) (n : Nat) (a : AgentName) :
    agentStateOf { st with idleCycles := n } a = agentStateOf st a := by cases a <;> rfl

@[simp] theorem agentStateOf_seed (ps : ProcessState) (req : String) (a : AgentName) :
    agentStateOf (seedState ps req) a = psAgentStateOf ps a := by cases a <;> rfl

/-! ### Helper lemmas: the highest-id scan -/

theorem foldl_pickNewer_mem (l : List BoardMessage) :
    ∀ (acc : Option BoardMessage) (b : BoardMessage),
      l.foldl pickNewer acc = some b → b ∈ l ∨ acc = some b := by
  induction l with
  | nil => intro acc b h; exact Or.inr h
  | cons m l ih =>
    intro acc b h
    rw [List.foldl_cons] at h
    rcases ih (pickNewer acc m) b h with hmem | hacc
    · exact Or.inl (List.mem_cons_of_mem _ hmem)
    · cases acc with
      | none =>
        have : m = b := by simpa [pickNewer] using hacc
        exact Or.inl (this ▸ List.mem_cons_self m l)
      | some b' =>
        by_cases hlt : b'.id < m.id
        · have : m = b := by simpa [pickNewer, hlt] using hacc
          exact Or.inl (this ▸ List.mem_cons_self m l)
        · have : b' = b := by simpa [pickNewer, hlt] using hacc
          exact Or.inr (by rw [this])

theorem maxIdMessage_mem (board : List BoardMessage) (k : MessageKind) (b : BoardMessage)
    (h : maxIdMessage board k = some b) : b ∈ board ∧ b.kind = k := by
  rcases foldl_pickNewer_mem _ _ _ h with hmem | hacc
  · have h2 := List.mem_filter.mp hmem
    exact ⟨h2.1, by simpa using h2.2⟩
  · exact absurd hacc (by simp)

theorem foldl_pickNewer_ne_none (l : List BoardMessage) :
    ∀ b : BoardMessage, l.foldl pickNewer (some b) ≠ none := by
  induction l with
  | nil => simp
  | cons m l ih =>
    intro b
    rw [List.foldl_cons]
    by_cases hlt : b.id < m.id
    · rw [show pickNewer (some b) m = some m from by simp [pickNewer, hlt]]
      exact ih m
    · rw [show pickNewer (some b) m = some b from by simp [pickNewer, hlt]]
      exact ih b

theorem maxIdMessage_eq_none_iff (board : List BoardMessage) (k : MessageKind) :
    maxIdMessage board k = none ↔ messagesOfKind board k = [] := by
  unfold maxIdMessage
  cases h : messagesOfKind board k with
  | nil => simp
  | cons m l =>
    simp only [List.foldl_cons]
    constructor
    · intro hc; exact absurd hc (foldl_pickNewer_ne_none l m)
    · intro hc; exact absurd hc (by simp)

theorem messagesOfKind_append (b1 b2 : List BoardMessage) (k : MessageKind) :
    messagesOfKind (b1 ++ b2) k = messagesOfKind b1 k ++ messagesOfKind b2 k :=
  List.filter_append _ _

theorem maxIdMessage_append_newer (board : List BoardMessage) (m : BoardMessage)
    (k : MessageKind) (hk : m.kind = k) (hid : ∀ x ∈ board, x.id < m.id) :
    maxIdMessage (board ++ [m]) k = some m := by
  unfold maxIdMessage
  rw [messagesOfKind_append]
  have hm : messagesOfKind [m] k = [m] := by simp [messagesOfKind, hk]
  rw [hm, List.foldl_append]
  cases hprev : (messagesOfKind board k).foldl pickNewer none with
  | none => simp [pickNewer]
  | some b =>
    have hb := maxIdMessage_mem board k b hprev
    have : b.id < m.id := hid b hb.1
    simp [pickNewer, this]

theorem maxIdMessage_append_other (board : List BoardMessage) (m : BoardMessage)
    (k : MessageKind) (hk : m.kind ≠ k) :
    maxIdMessage (board ++ [m]) k = maxIdMessage board k := by
  unfold maxIdMessage
  rw [messagesOfKind_append]
  have : messagesOfKind [m] k = [] := by simp [messagesOfKind, hk]
  rw [this, List.append_nil]

/-! ### Helper lemmas: blackboard update -/

theorem lookup_update_same (bb : BlackboardState) (m : BoardMessage)
    (h : m.kind ≠ MessageKind.featureRequest) :
    lookupKind (blackboardUpdate bb m) m.kind = some m := by
  obtain ⟨i, a, k, c⟩ := m
  cases k <;> simp_all [blackboardUpdate, lookupKind]

theorem lookup_update_other (bb : BlackboardState) (m : BoardMessage) (k : MessageKind)
    (h : k ≠ m.kind) : lookupKind (blackboardUpdate bb m) k = lookupKind bb k := by
  obtain ⟨i, a, k', c⟩ := m
  cases k' <;> cases k <;> simp_all [blackboardUpdate, lookupKind]

theorem update_featureRequest (bb : BlackboardState) (m : BoardMessage)
    (h : m.kind = MessageKind.featureRequest) : blackboardUpdate bb m = bb := by
  obtain ⟨i, a, k, c⟩ := m
  cases k <;> simp_all [blackboardUpdate]

/-! ### Helper lemmas: triggers, dependency order, counts -/

theorem findTrigger_frontend_spec (board : List BoardMessage) (bb : BlackboardState)
    (self : AgentState) (t : BoardMessage)
    (hinv : lookupKind bb MessageKind.uiuxSpec = maxIdMessage board MessageKind.uiuxSpec)
    (h : findTrigger AgentName.frontend board bb self = some t) :
    ∃ s ∈ board, s.kind = MessageKind.uiuxSpec := by
  simp only [findTrigger] at h
  cases hbb : bb.uiuxSpec with
  | some s =>
    have hmax : maxIdMessage board MessageKind.uiuxSpec = some s := by
      rw [← hinv]; exact hbb
    obtain ⟨hm, hk⟩ := maxIdMessage_mem _ _ _ hmax
    exact ⟨s, hm, hk⟩
  | none =>
    rw [hbb] at h
    cases hfind : board.reverse.find? (fun m => decide (m.kind = MessageKind.uiuxSpec)) with
    | none => rw [hfind] at h; simp at h
    | some s =>
      have hmem := List.mem_of_find?_eq_some hfind
      have hp := List.find?_some hfind
      exact ⟨s, List.mem_reverse.mp hmem, of_decide_eq_true hp⟩

theorem findTrigger_backend_spec (board : List BoardMessage) (bb : BlackboardState)
    (self : AgentState) (t : BoardMessage)
    (hinv : lookupKind bb MessageKind.uiuxSpec = maxIdMessage board MessageKind.uiuxSpec)
    (h : findTrigger AgentName.backend board bb self = some t) :
    ∃ s ∈ board, s.kind = MessageKind.uiuxSpec := by
  simp only [findTrigger] at h
  cases hbb : bb.uiuxSpec with
  | some s =>
    have hmax : maxIdMessage board MessageKind.uiuxSpec = some s := by
      rw [← hinv]; exact hbb
    obtain ⟨hm, hk⟩ := maxIdMessage_mem _ _ _ hmax
    exact ⟨s, hm, hk⟩
  | none =>
    rw [hbb] at h
    cases hfind : board.reverse.find? (fun m => decide (m.kind = MessageKind.uiuxSpec)) with
    | none => rw [hfind] at h; simp at h
    | some s =>
      have hmem := List.mem_of_find?_eq_some hfind
      have hp := List.find?_some hfind
      exact ⟨s, List.mem_reverse.mp hmem, of_decide_eq_true hp⟩

theorem depOrdered_append (board : List BoardMessage) (m : BoardMessage)
    (hb : depOrdered board)
    (hm : planKind m.kind = true → ∃ s ∈ board, s.kind = MessageKind.uiuxSpec) :
    depOrdered (board ++ [m]) := by
  intro i hplan
  have hlen : (board ++ [m]).length = board.length + 1 := by simp
  have hi1 : (i : Nat) < board.length + 1 := by rw [← hlen]; exact i.isLt
  by_cases hi : (i : Nat) < board.length
  · have hget : (board ++ [m]).get i = board.get ⟨(i : Nat), hi⟩ := by
      rw [List.get_eq_getElem, List.get_eq_getElem]
      exact List.getElem_append_left hi
    rw [hget] at hplan
    obtain ⟨j, hjlt, hjk⟩ := hb ⟨(i : Nat), hi⟩ hplan
    have hj2 : (j : Nat) < (board ++ [m]).length := by
      rw [hlen]; have := j.isLt; omega
    refine ⟨⟨(j : Nat), hj2⟩, by simpa using hjlt, ?_⟩
    have hgj : (board ++ [m]).get ⟨(j : Nat), hj2⟩ = board.get ⟨(j : Nat), j.isLt⟩ := by
      rw [List.get_eq_getElem, List.get_eq_getElem]
      exact List.getElem_append_left j.isLt
    rw [hgj]
    exact hjk
  · have hieq : (i : Nat) = board.length := by omega
    have hget : (board ++ [m]).get i = m := by
      rw [List.get_eq_getElem]
      exact List.getElem_concat_length board m (i : Nat) hieq i.isLt
    rw [hget] at hplan
    obtain ⟨s, hsmem, hskind⟩ := hm hplan
    obtain ⟨j, hjget⟩ := List.get_of_mem hsmem
    have hj2 : (j : Nat) < (board ++ [m]).length := by
      rw [hlen]; have := j.isLt; omega
    refine ⟨⟨(j : Nat), hj2⟩, ?_, ?_⟩
    · show (j : Nat) < (i : Nat)
      rw [hieq]; exact j.isLt
    · have hgj : (board ++ [m]).get ⟨(j : Nat), hj2⟩ = board.get ⟨(j : Nat), j.isLt⟩ := by
        rw [List.get_eq_getElem, List.get_eq_getElem]
        exact List.getElem_append_left j.isLt
      rw [hgj]
      have : board.get ⟨(j : Nat), j.isLt⟩ = s := hjget
      rw [this]
      exact hskind

theorem countAuthor_append (board : List BoardMessage) (m : BoardMessage) (a : AgentName) :
    countAuthor (board ++ [m]) a =
      countAuthor board a + (if m.author = MsgAuthor.byAgent a then 1 else 0) := by
  unfold countAuthor
  rw [List.filter_append, List.length_append]
  by_cases h : m.author = MsgAuthor.byAgent a <;> simp [h]

/-! ### Helper lemmas: the three branches of an agent turn -/

theorem agentTurn_eq_none (gen : GenOracle) (st : PipelineState) (a : AgentName)
    (hft : findTrigger a st.board st.blackboard (agentStateOf st a) = none) :
    agentTurn gen st a = (st, none) := by
  simp only [agentTurn, hft]

theorem agentTurn_eq_budget (gen : GenOracle) (st : PipelineState) (a : AgentName)
    (t : BoardMessage)
    (hft : findTrigger a st.board st.blackboard (agentStateOf st a) = some t)
    (hbud : (agentStateOf st a).maxIterations ≤ (agentStateOf st a).iterations) :
    agentTurn gen st a = (st, none) := by
  simp only [agentTurn, hft, if_pos hbud]

theorem agentTurn_eq_act (gen : GenOracle) (st : PipelineState) (a : AgentName)
    (t : BoardMessage)
    (hft : findTrigger a st.board st.blackboard (agentStateOf st a) = some t)
    (hbud : ¬ (agentStateOf st a).maxIterations ≤ (agentStateOf st a).iterations) :
    agentTurn gen st a = (actedState gen st a, some (t, actMessage gen st a)) := by
  simp only [agentTurn, hft, if_neg hbud]
  rfl

/-! ### Helper lemmas: invariant preservation -/

theorem goodState_act (gen : GenOracle) (ps : ProcessState) (st : PipelineState)
    (a : AgentName)
    (hbud : ¬ (agentStateOf st a).maxIterations ≤ (agentStateOf st a).iterations)
    (hspec : planKind (outputKind a) = true → ∃ s ∈ st.board, s.kind = MessageKind.uiuxSpec)
    (h : GoodState ps st) : GoodState ps (actedState gen st a) := by
  obtain ⟨hinv, hid, hdep, hcount, hmax, hmono, hub⟩ := h
  have hboard : (actedState gen st a).board = st.board ++ [actMessage gen st a] := by
    simp [actedState]
  have hbb : (actedState gen st a).blackboard =
      blackboardUpdate st.blackboard (actMessage gen st a) := by
    simp [actedState]
  have hnext : (actedState gen st a).nextId = st.nextId + 1 := by
    simp [actedState]
  have hkind : (actMessage gen st a).kind = outputKind a := rfl
  have hauthor : (actMessage gen st a).author = MsgAuthor.byAgent a := rfl
  have hidm : (actMessage gen st a).id = st.nextId := rfl
  have hofr : outputKind a ≠ MessageKind.featureRequest := by
    cases a <;> simp [outputKind]
  have hag_same : agentStateOf (actedState gen st a) a =
      ⟨(agentStateOf st a).iterations + 1, (agentStateOf st a).maxIterations,
        some (summarizeContent (concatFragments (gen a (agentStateOf st a).iterations)) 200)⟩ := by
    simp [actedState]
  have hag_other : ∀ a', a' ≠ a →
      agentStateOf (actedState gen st a) a' = agentStateOf st a' := by
    intro a' ha'
    rw [actedState, agentStateOf_set_other _ _ _ _ ha', agentStateOf_core_update]
  refine ⟨?_, ?_, ?_, ?_, ?_, ?_, ?_⟩
  · intro k
    rw [hbb, hboard]
    by_cases hk : k = (actMessage gen st a).kind
    · subst hk
      rw [lookup_update_same _ _ (by rw [hkind]; exact hofr)]
      rw [maxIdMessage_append_newer _ _ _ rfl (fun x hx => by rw [hidm]; exact hid x hx)]
    · rw [lookup_update_other _ _ _ hk,
        maxIdMessage_append_other _ _ _ (fun hc => hk hc.symm)]
      exact hinv k
  · intro m hm
    rw [hnext]
    rw [hboard] at hm
    rcases List.mem_append.mp hm with hm | hm
    · exact Nat.lt_succ_of_lt (hid m hm)
    · have hmm : m = actMessage gen st a := by simpa using hm
      rw [hmm, hidm]
      exact Nat.lt_succ_self _
  · rw [hboard]
    exact depOrdered_append _ _ hdep (by rw [hkind]; exact hspec)
  · intro a'
    rw [hboard, countAuthor_append, hauthor]
    by_cases ha : a' = a
    · subst ha
      rw [hag_same, if_pos rfl]
      exact Nat.add_le_add_right (hcount a') 1
    · rw [if_neg (fun hc => by injection hc with hc2; exact ha hc2.symm)]
      rw [hag_other a' ha, Nat.add_zero]
      exact hcount a'
  · intro a'
    by_cases ha : a' = a
    · subst ha
      rw [hag_same]
      exact hmax a'
    · rw [hag_other a' ha]
      exact hmax a'
  · intro a'
    by_cases ha : a' = a
    · subst ha
      rw [hag_same]
      exact Nat.le_succ_of_le (hmono a')
    · rw [hag_other a' ha]
      exact hmono a'
  · intro a'
    by_cases ha : a' = a
    · subst ha
      rw [hag_same]
      show (agentStateOf st a').iterations + 1 ≤
        max (psAgentStateOf ps a').iterations (psAgentStateOf ps a').maxIterations
      have h1 := hmax a'
      have h2 := hub a'
      omega
    · rw [hag_other a' ha]
      exact hub a'

theorem goodState_seed (ps : ProcessState) (req : String) :
    GoodState ps (seedState ps req) := by
  refine ⟨?_, ?_, ?_, ?_, ?_, ?_, ?_⟩
  · intro k
    cases k <;>
      simp [seedState, lookupKind, emptyBlackboard, maxIdMessage, messagesOfKind, pickNewer]
  · intro m hm
    have hmm : m = ⟨ps.nextId, MsgAuthor.user, MessageKind.featureRequest, jsTrim req⟩ := by
      simpa [seedState] using hm
    rw [hmm]
    exact Nat.lt_succ_self _
  · intro i hplan
    exfalso
    have h1 : (seedState ps req).board.get i =
        ⟨ps.nextId, MsgAuthor.user, MessageKind.featureRequest, jsTrim req⟩ := by
      obtain ⟨iv, hi⟩ := i
      have : iv = 0 := by simp [seedState] at hi; omega
      subst this
      rfl
    rw [h1] at hplan
    simp [planKind] at hplan
  · intro a
    have : countAuthor (seedState ps req).board a = 0 := by
      simp [seedState, countAuthor]
    rw [this]
    exact Nat.zero_le _
  · intro a
    rw [agentStateOf_seed]
  · intro a
    rw [agentStateOf_seed]
  · intro a
    rw [agentStateOf_seed]
    exact Nat.le_max_left _ _

theorem goodState_idle (ps : ProcessState) (st : PipelineState) (n : Nat)
    (h : GoodState ps st) : GoodState ps { st with idleCycles := n } := by
  obtain ⟨h1, h2, h3, h4, h5, h6, h7⟩ := h
  exact ⟨h1, h2, h3,
    fun a => by rw [agentStateOf_idle_update]; exact h4 a,
    fun a => by rw [agentStateOf_idle_update]; exact h5 a,
    fun a => by rw [agentStateOf_idle_update]; exact h6 a,
    fun a => by rw [agentStateOf_idle_update]; exact h7 a⟩

theorem goodState_turn (gen : GenOracle) (ps : ProcessState) (st : PipelineState)
    (a : AgentName) (h : GoodState ps st) : GoodState ps (agentTurn gen st a).1 := by
  cases hft : findTrigger a st.board st.blackboard (agentStateOf st a) with
  | none => rw [agentTurn_eq_none gen st a hft]; exact h
  | some t =>
    by_cases hbud : (agentStateOf st a).maxIterations ≤ (agentStateOf st a).iterations
    · rw [agentTurn_eq_budget gen st a t hft hbud]; exact h
    · rw [agentTurn_eq_act gen st a t hft hbud]
      refine goodState_act gen ps st a hbud ?_ h
      intro hplan
      cases a with
      | uiux => simp [outputKind, planKind] at hplan
      | frontend => exact findTrigger_frontend_spec _ _ _ _ (h.1 MessageKind.uiuxSpec) hft
      | backend => exact findTrigger_backend_spec _ _ _ _ (h.1 MessageKind.uiuxSpec) hft

/-- Every state visited during a run satisfies the master invariant. -/
theorem reach_goodState (gen : GenOracle) (ps : ProcessState) (req : String)
    (st : PipelineState) (h : Reach gen ps req st) : GoodState ps st := by
  induction h with
  | seed => exact goodState_seed ps req
  | turn st a _ ih => exact goodState_turn gen ps st a ih
  | idle st n _ ih => exact goodState_idle ps st n ih

/-! ### More helper lemmas: agent-state bookkeeping of a turn -/

theorem actedState_agentStateOf_same (gen : GenOracle) (st : PipelineState) (a : AgentName) :
    agentStateOf (actedState gen st a) a =
      ⟨(agentStateOf st a).iterations + 1, (agentStateOf st a).maxIterations,
        some (summarizeContent (concatFragments (gen a (agentStateOf st a).iterations)) 200)⟩ := by
  simp [actedState]

theorem actedState_agentStateOf_other (gen : GenOracle) (st : PipelineState) (a a' : AgentName)
    (h : a' ≠ a) : agentStateOf (actedState gen st a) a' = agentStateOf st a' := by
  rw [actedState, agentStateOf_set_other _ _ _ _ h, agentStateOf_core_update]

theorem agentTurn_none_state (gen : GenOracle) (st : PipelineState) (a : AgentName)
    (h : (agentTurn gen st a).2 = none) : (agentTurn gen st a).1 = st := by
  cases hft : findTrigger a st.board st.blackboard (agentStateOf st a) with
  | none => rw [agentTurn_eq_none gen st a hft]
  | some t =>
    by_cases hbud : (agentStateOf st a).maxIterations ≤ (agentStateOf st a).iterations
    · rw [agentTurn_eq_budget gen st a t hft hbud]
    · rw [agentTurn_eq_act gen st a t hft hbud] at h
      simp at h

theorem optEvent_eq_nil (a : AgentName) (o : Option (BoardMessage × BoardMessage))
    (h : optEvent a o = []) : o = none := by
  cases o with
  | none => rfl
  | some p => obtain ⟨t, m⟩ := p; simp [optEvent] at h

theorem runCycle_idle_state (gen : GenOracle) (st : PipelineState)
    (h : (runCycle gen st).2 = []) : (runCycle gen st).1 = st := by
  have h0 : (optEvent AgentName.uiux (agentTurn gen st AgentName.uiux).2 ++
      optEvent AgentName.frontend
        (agentTurn gen (agentTurn gen st AgentName.uiux).1 AgentName.frontend).2) ++
      optEvent AgentName.backend
        (agentTurn gen (agentTurn gen (agentTurn gen st AgentName.uiux).1
          AgentName.frontend).1 AgentName.backend).2 = [] := h
  rcases List.append_eq_nil.mp h0 with ⟨h12, h3⟩
  rcases List.append_eq_nil.mp h12 with ⟨h1, h2⟩
  have e1 := agentTurn_none_state gen st AgentName.uiux (optEvent_eq_nil _ _ h1)
  rw [e1] at h2 h3
  have e2 := agentTurn_none_state gen st AgentName.frontend (optEvent_eq_nil _ _ h2)
  rw [e2] at h3
  have e3 := agentTurn_none_state gen st AgentName.backend (optEvent_eq_nil _ _ h3)
  show (agentTurn gen (agentTurn gen (agentTurn gen st AgentName.uiux).1
    AgentName.frontend).1 AgentName.backend).1 = st
  rw [e1, e2, e3]

theorem actMessage_idle (gen : GenOracle) (st : PipelineState) (n : Nat) (a : AgentName) :
    actMessage gen { st with idleCycles := n } a = actMessage gen st a := by
  cases a <;> rfl

theorem actedState_idle (gen : GenOracle) (st : PipelineState) (n : Nat) (a : AgentName) :
    actedState gen { st with idleCycles := n } a =
      { actedState gen st a with idleCycles := n } := by
  cases a <;> rfl

theorem agentTurn_idle_comm (gen : GenOracle) (st : PipelineState) (n : Nat) (a : AgentName) :
    agentTurn gen { st with idleCycles := n } a =
      ({ (agentTurn gen st a).1 with idleCycles := n }, (agentTurn gen st a).2) := by
  have hft0 : findTrigger a ({ st with idleCycles := n } : PipelineState).board
      ({ st with idleCycles := n } : PipelineState).blackboard
      (agentStateOf { st with idleCycles := n } a) =
      findTrigger a st.board st.blackboard (agentStateOf st a) := by
    rw [agentStateOf_idle_update]
  cases hft : findTrigger a st.board st.blackboard (agentStateOf st a) with
  | none =>
    rw [agentTurn_eq_none gen _ a (by rw [hft0]; exact hft),
      agentTurn_eq_none gen st a hft]
  | some t =>
    by_cases hbud : (agentStateOf st a).maxIterations ≤ (agentStateOf st a).iterations
    · rw [agentTurn_eq_budget gen _ a t (by rw [hft0]; exact hft)
        (by rw [agentStateOf_idle_update]; exact hbud),
        agentTurn_eq_budget gen st a t hft hbud]
    · rw [agentTurn_eq_act gen _ a t (by rw [hft0]; exact hft)
        (by rw [agentStateOf_idle_update]; exact hbud),
        agentTurn_eq_act gen st a t hft hbud,
        actMessage_idle, actedState_idle]

theorem runCycle_idle_comm (gen : GenOracle) (st : PipelineState) (n : Nat) :
    runCycle gen { st with idleCycles := n } =
      ({ (runCycle gen st).1 with idleCycles := n }, (runCycle gen st).2) := by
  have c1 := agentTurn_idle_comm gen st n AgentName.uiux
  have c2 := agentTurn_idle_comm gen (agentTurn gen st AgentName.uiux).1 n AgentName.frontend
  have c3 := agentTurn_idle_comm gen
    (agentTurn gen (agentTurn gen st AgentName.uiux).1 AgentName.frontend).1 n AgentName.backend
  simp only [runCycle, c1, c2, c3]

theorem runCycles_cyclesRun_le (gen : GenOracle) (n : Nat) :
    ∀ st, (runCycles gen n st).cyclesRun ≤ n := by
  induction n with
  | zero => intro st; exact Nat.le_refl 0
  | succ n ih =>
    intro st
    simp only [runCycles]
    split
    · split
      · exact Nat.succ_le_succ (Nat.zero_le n)
      · exact Nat.succ_le_succ (ih _)
    · exact Nat.succ_le_succ (ih _)

theorem runCycles_idle_step (gen : GenOracle) (st : PipelineState) (n : Nat)
    (h : runCycle gen st = (st, []))
    (hlt : st.idleCycles + 1 < 3) :
    runCycles gen (n + 1) st =
      ⟨(runCycles gen n { st with idleCycles := st.idleCycles + 1 }).state,
        (runCycles gen n { st with idleCycles := st.idleCycles + 1 }).cyclesRun + 1,
        (runCycles gen n { st with idleCycles := st.idleCycles + 1 }).idleStopped⟩ := by
  simp only [runCycles, h, List.isEmpty_nil, if_true]
  rw [if_neg (by omega)]

theorem runCycles_idle_last (gen : GenOracle) (st : PipelineState) (n : Nat)
    (h : runCycle gen st = (st, []))
    (hge : 3 ≤ st.idleCycles + 1) :
    runCycles gen (n + 1) st = ⟨{ st with idleCycles := st.idleCycles + 1 }, 1, true⟩ := by
  simp only [runCycles, h, List.isEmpty_nil, if_true]
  rw [if_pos (by omega)]

theorem runCycles_idle_stop (gen : GenOracle) (st : PipelineState)
    (hidle : st.idleCycles = 0) (h : (runCycle gen st).2 = []) (k : Nat) :
    runCycles gen (k + 3) st = ⟨{ st with idleCycles := 3 }, 3, true⟩ := by
  obtain ⟨bd, bb, ni, au, af, ab, ic⟩ := st
  have hic : ic = 0 := hidle
  subst hic
  have hc : runCycle gen ⟨bd, bb, ni, au, af, ab, 0⟩ = (⟨bd, bb, ni, au, af, ab, 0⟩, []) :=
    Prod.ext (runCycle_idle_state gen _ h) h
  have hcomm : ∀ n, runCycle gen ⟨bd, bb, ni, au, af, ab, n⟩ =
      (⟨bd, bb, ni, au, af, ab, n⟩, []) := by
    intro n
    have hcm := runCycle_idle_comm gen ⟨bd, bb, ni, au, af, ab, 0⟩ n
    rw [hc] at hcm
    exact hcm
  have s1 : runCycles gen (k + 2 + 1) ⟨bd, bb, ni, au, af, ab, 0⟩ =
      ⟨(runCycles gen (k + 2) ⟨bd, bb, ni, au, af, ab, 1⟩).state,
        (runCycles gen (k + 2) ⟨bd, bb, ni, au, af, ab, 1⟩).cyclesRun + 1,
        (runCycles gen (k + 2) ⟨bd, bb, ni, au, af, ab, 1⟩).idleStopped⟩ :=
    runCycles_idle_step gen _ (k + 2) hc (by show (0:Nat) + 1 < 3; decide)
  have s2 : runCycles gen (k + 2) ⟨bd, bb, ni, au, af, ab, 1⟩ =
      ⟨(runCycles gen (k + 1) ⟨bd, bb, ni, au, af, ab, 2⟩).state,
        (runCycles gen (k + 1) ⟨bd, bb, ni, au, af, ab, 2⟩).cyclesRun + 1,
        (runCycles gen (k + 1) ⟨bd, bb, ni, au, af, ab, 2⟩).idleStopped⟩ :=
    runCycles_idle_step gen _ (k + 1) (hcomm 1) (by show (1:Nat) + 1 < 3; decide)
  have s3 : runCycles gen (k + 1) ⟨bd, bb, ni, au, af, ab, 2⟩ =
      ⟨⟨bd, bb, ni, au, af, ab, 3⟩, 1, true⟩ :=
    runCycles_idle_last gen _ k (hcomm 2) (by show (3:Nat) ≤ 2 + 1; decide)
  show runCycles gen (k + 2 + 1) ⟨bd, bb, ni, au, af, ab, 0⟩ = _
  rw [s1, s2, s3]

theorem agentTurn_iter_mono (gen : GenOracle) (st : PipelineState) (a a' : AgentName) :
    (agentStateOf st a').iterations ≤ (agentStateOf (agentTurn gen st a).1 a').iterations := by
  cases hft : findTrigger a st.board st.blackboard (agentStateOf st a) with
  | none => rw [agentTurn_eq_none gen st a hft]
  | some t =>
    by_cases hbud : (agentStateOf st a).maxIterations ≤ (agentStateOf st a).iterations
    · rw [agentTurn_eq_budget gen st a t hft hbud]
    · rw [agentTurn_eq_act gen st a t hft hbud]
      by_cases ha : a' = a
      · subst ha
        show (agentStateOf st a').iterations ≤
          (agentStateOf (actedState gen st a') a').iterations
        rw [actedState_agentStateOf_same]
        exact Nat.le_succ _
      · show (agentStateOf st a').iterations ≤
          (agentStateOf (actedState gen st a) a').iterations
        rw [actedState_agentStateOf_other gen st a a' ha]

theorem runCycle_iter_mono (gen : GenOracle) (st : PipelineState) (a : AgentName) :
    (agentStateOf st a).iterations ≤ (agentStateOf (runCycle gen st).1 a).iterations := by
  have h1 := agentTurn_iter_mono gen st AgentName.uiux a
  have h2 := agentTurn_iter_mono gen (agentTurn gen st AgentName.uiux).1 AgentName.frontend a
  have h3 := agentTurn_iter_mono gen
    (agentTurn gen (agentTurn gen st AgentName.uiux).1 AgentName.frontend).1 AgentName.backend a
  exact le_trans h1 (le_trans h2 h3)

theorem runCycles_iter_mono (gen : GenOracle) (n : Nat) :
    ∀ (st : PipelineState) (a : AgentName),
      (agentStateOf st a).iterations ≤
        (agentStateOf (runCycles gen n st).state a).iterations := by
  induction n with
  | zero => intro st a; exact Nat.le_refl _
  | succ n ih =>
    intro st a
    simp only [runCycles]
    split
    · split
      · simpa using runCycle_iter_mono gen st a
      · have hr := ih { (runCycle gen st).1 with
          idleCycles := (runCycle gen st).1.idleCycles + 1 } a
        rw [agentStateOf_idle_update] at hr
        exact le_trans (runCycle_iter_mono gen st a) hr
    · have hr := ih { (runCycle gen st).1 with idleCycles := 0 } a
      rw [agentStateOf_idle_update] at hr
      exact le_trans (runCycle_iter_mono gen st a) hr

/-! ### Claim theorems -/

/-- C2: at every point during a run — the seeded state and every state
after an agent's appended output and the index update that follows — for
every message kind the blackboard entry equals the highest-id message of
that kind on the board, and it is absent exactly when no message of that
kind exists on the board. -/
theorem index_consistency (gen : GenOracle) (ps : ProcessState) (req : String)
    (st : PipelineState) (h : Reach gen ps req st) (k : MessageKind) :
    lookupKind st.blackboard k = maxIdMessage st.board k ∧
    (lookupKind st.blackboard k = none ↔ messagesOfKind st.board k = []) := by
  have hinv := (reach_goodState gen ps req st h).1 k
  exact ⟨hinv, by rw [hinv]; exact maxIdMessage_eq_none_iff _ _⟩

theorem index_consistency_witness :
    lookupKind (agentTurn genEmpty (seedState initialProcessState "one")
        AgentName.uiux).1.blackboard MessageKind.uiuxSpec =
      maxIdMessage (agentTurn genEmpty (seedState initialProcessState "one")
        AgentName.uiux).1.board MessageKind.uiuxSpec :=
  (index_consistency genEmpty initialProcessState "one" _
    (Reach.turn _ AgentName.uiux Reach.seed) MessageKind.uiuxSpec).1

/-- C3: at every point during a run, the number of board messages authored
by an agent never exceeds that agent's configured iteration budget
(`maxIterations`, which the source sets to `MAX_AGENT_ITERATIONS = 3`
for every agent), provided the run started with every iteration counter
within its budget (true both for a fresh process and for any later run,
since counters only grow up to the budget). -/
theorem iteration_bound (gen : GenOracle) (ps : ProcessState) (req : String)
    (st : PipelineState) (h : Reach gen ps req st)
    (hps : ∀ a, (psAgentStateOf ps a).iterations ≤ (psAgentStateOf ps a).maxIterations)
    (a : AgentName) :
    countAuthor st.board a ≤ (agentStateOf st a).maxIterations := by
  obtain ⟨_, _, _, hcount, hmax, _, hub⟩ := reach_goodState gen ps req st h
  have h1 := hcount a
  have h2 := hub a
  have h3 := hmax a
  have h4 := hps a
  omega

theorem iteration_bound_witness :
    countAuthor (agentTurn genEmpty (seedState initialProcessState "one")
        AgentName.uiux).1.board AgentName.uiux ≤
      (agentStateOf (agentTurn genEmpty (seedState initialProcessState "one")
        AgentName.uiux).1 AgentName.uiux).maxIterations :=
  iteration_bound genEmpty initialProcessState "one" _
    (Reach.turn _ AgentName.uiux Reach.seed)
    (by intro a; cases a <;> decide) AgentName.uiux

/-- C7: in every reachable state of a run, every frontend-plan or
backend-plan message on the board has a uiux-spec message at a strictly
smaller board position; equivalently, a consumer plan is never appended
before an upstream uiux-spec exists. -/
theorem dependency_ordering (gen : GenOracle) (ps : ProcessState) (req : String)
    (st : PipelineState) (h : Reach gen ps req st) : depOrdered st.board :=
  (reach_goodState gen ps req st h).2.2.1

theorem dependency_ordering_witness :
    depOrdered (agentTurn genEmpty (agentTurn genEmpty
      (seedState initialProcessState "one") AgentName.uiux).1 AgentName.frontend).1.board :=
  dependency_ordering genEmpty initialProcessState "one" _
    (Reach.turn _ AgentName.frontend (Reach.turn _ AgentName.uiux Reach.seed))

/-- C6 (counterexample): the index update is not guarded by an id
comparison.  With a cached uiux-spec of id 5, updating with a uiux-spec
of id 3 — not larger than the cached id — replaces the cached entry
instead of leaving it unchanged, refuting the claimed iff-contract. -/
theorem blackboardUpdate_ignores_id :
    staleSpec.id ≤ 5 ∧
    lookupKind bbCached MessageKind.uiuxSpec =
      some ⟨5, MsgAuthor.byAgent AgentName.uiux, MessageKind.uiuxSpec, "old"⟩ ∧
    blackboardUpdate bbCached staleSpec ≠ bbCached ∧
    lookupKind (blackboardUpdate bbCached staleSpec) MessageKind.uiuxSpec = some staleSpec := by
  decide

/-- C6 (amended): the index update replaces the cached entry for the
message's kind unconditionally whenever that kind is one of the three
agent output kinds, regardless of any id comparison; entries of other
kinds are untouched, and a feature-request message leaves the index
entirely unchanged (its kind has no update branch). -/
theorem blackboardUpdate_unconditional (bb : BlackboardState) (m : BoardMessage) :
    (m.kind ≠ MessageKind.featureRequest →
      lookupKind (blackboardUpdate bb m) m.kind = some m) ∧
    (∀ k, k ≠ m.kind → lookupKind (blackboardUpdate bb m) k = lookupKind bb k) ∧
    (m.kind = MessageKind.featureRequest → blackboardUpdate bb m = bb) :=
  ⟨lookup_update_same bb m, fun k hk => lookup_update_other bb m k hk,
    update_featureRequest bb m⟩

theorem blackboardUpdate_unconditional_witness :
    lookupKind (blackboardUpdate bbCached staleSpec) staleSpec.kind = some staleSpec ∧
    lookupKind (blackboardUpdate bbCached staleSpec) MessageKind.featureRequest =
      lookupKind bbCached MessageKind.featureRequest :=
  ⟨(blackboardUpdate_unconditional bbCached staleSpec).1 (by decide),
    (blackboardUpdate_unconditional bbCached staleSpec).2.1 MessageKind.featureRequest
      (by decide)⟩

/-- C9: whenever an agent acts, it produces exactly one new message — the
board grows by exactly that message at the end — whose author is the
agent's own role, whose kind is its designated output kind, and whose
content is the concatenation of the generation collaborator's fragments
in arrival order, trimmed of leading and trailing whitespace. -/
theorem act_contract (gen : GenOracle) (st : PipelineState) (a : AgentName)
    (trigger msg : BoardMessage)
    (hact : (agentTurn gen st a).2 = some (trigger, msg)) :
    msg.author = MsgAuthor.byAgent a ∧
    msg.kind = outputKind a ∧
    msg.content = jsTrim (String.join (gen a (agentStateOf st a).iterations)) ∧
    (agentTurn gen st a).1.board = st.board ++ [msg] := by
  cases hft : findTrigger a st.board st.blackboard (agentStateOf st a) with
  | none => rw [agentTurn_eq_none gen st a hft] at hact; simp at hact
  | some t =>
    by_cases hbud : (agentStateOf st a).maxIterations ≤ (agentStateOf st a).iterations
    · rw [agentTurn_eq_budget gen st a t hft hbud] at hact; simp at hact
    · rw [agentTurn_eq_act gen st a t hft hbud] at hact
      simp only [Option.some.injEq, Prod.mk.injEq] at hact
      obtain ⟨-, hmsg⟩ := hact
      subst hmsg
      rw [agentTurn_eq_act gen st a t hft hbud]
      refine ⟨rfl, rfl, rfl, ?_⟩
      show (actedState gen st a).board = st.board ++ [actMessage gen st a]
      simp [actedState]

theorem act_contract_witness :
    sW.author = MsgAuthor.byAgent AgentName.uiux ∧
    sW.kind = outputKind AgentName.uiux ∧
    sW.content = jsTrim (String.join (genEmpty AgentName.uiux
      (agentStateOf (seedState initialProcessState "one") AgentName.uiux).iterations)) ∧
    (agentTurn genEmpty (seedState initialProcessState "one") AgentName.uiux).1.board =
      (seedState initialProcessState "one").board ++ [sW] :=
  act_contract genEmpty (seedState initialProcessState "one") AgentName.uiux m0W sW
    (by decide)

/-- C8: if the trimmed first non-blank line of the content is longer than
the configured maximum summary length (3 or more; the source always uses
the default 200), the summary equals the first `maxLength - 3`
characters of that trimmed line followed by the 3-character `"..."`
marker and has length exactly `maxLength`; if it is at most `maxLength`
characters long, the summary is that trimmed line unchanged. -/
theorem summarize_truncation (content : String) (maxLength : Nat) (trimmed : String)
    (hml : 3 ≤ maxLength)
    (ht : trimmed = jsTrim (((jsSplitLines content).find? fun line =>
      decide (0 < (jsTrim line).length)).getD "")) :
    (maxLength < trimmed.length →
      summarizeContent content maxLength = jsTake trimmed (maxLength - 3) ++ "..." ∧
      (summarizeContent content maxLength).length = maxLength) ∧
    (trimmed.length ≤ maxLength → summarizeContent content maxLength = trimmed) := by
  have hs : summarizeContent content maxLength =
      if trimmed.length ≤ maxLength then trimmed
      else jsTake trimmed (maxLength - 3) ++ "..." := by
    rw [ht]; rfl
  constructor
  · intro hlong
    have hnle : ¬ trimmed.length ≤ maxLength := by omega
    rw [hs, if_neg hnle]
    refine ⟨rfl, ?_⟩
    rw [← String.length_data, String.data_append, List.length_append]
    rw [show (jsTake trimmed (maxLength - 3)).data =
      trimmed.data.take (maxLength - 3) from rfl]
    rw [List.length_take]
    have h3 : ("...".data.length) = 3 := rfl
    have hd : trimmed.data.length = trimmed.length := String.length_data trimmed
    omega
  · intro hle
    rw [hs, if_pos hle]

set_option maxRecDepth 8192 in
theorem summarize_truncation_witness :
    (summarizeContent longLine 200 = jsTake longLine 197 ++ "..." ∧
      (summarizeContent longLine 200).length = 200) ∧
    summarizeContent "hi" 200 = "hi" :=
  ⟨(summarize_truncation longLine 200 longLine (by decide) (by decide)).1 (by decide),
    (summarize_truncation "hi" 200 "hi" (by decide) (by decide)).2 (by decide)⟩

/-- C10: if an agent's act produces content whose every line is blank,
the computed summary is the empty string; the end-of-run report then
prints `no output` for that agent whatever the board contains — in
particular even when the agent acted and its message is on the board —
so the report's `no output` line does not imply the agent authored zero
messages. -/
theorem blank_output_reports_no_output (content : String)
    (hblank : ∀ line ∈ jsSplitLines content, (jsTrim line).length = 0) :
    summarizeContent content 200 = "" ∧
    ∀ (board : List BoardMessage) (a : AgentName) (iters maxIters : Nat),
      agentReport board a ⟨iters, maxIters, some (summarizeContent content 200)⟩ =
        ReportLine.noOutput := by
  have hfind : (jsSplitLines content).find?
      (fun line => decide (0 < (jsTrim line).length)) = none := by
    rw [List.find?_eq_none]
    intro l hl
    simp [hblank l hl]
  have hsum : summarizeContent content 200 = "" := by
    unfold summarizeContent
    rw [hfind]
    rfl
  refine ⟨hsum, ?_⟩
  intro board a iters maxIters
  rw [hsum]
  have hie : ("" : String).isEmpty = true := rfl
  simp [agentReport, summaryTruthy, hie]

theorem blank_output_reports_no_output_witness :
    summarizeContent " \n " 200 = "" ∧
    agentReport [⟨2, MsgAuthor.byAgent AgentName.uiux, MessageKind.uiuxSpec, ""⟩]
      AgentName.uiux ⟨1, 3, some (summarizeContent " \n " 200)⟩ = ReportLine.noOutput :=
  ⟨(blank_output_reports_no_output " \n " (by decide)).1,
    (blank_output_reports_no_output " \n " (by decide)).2
      [⟨2, MsgAuthor.byAgent AgentName.uiux, MessageKind.uiuxSpec, ""⟩] AgentName.uiux 1 3⟩

/-- C4: every pipeline run executes at most `MAX_GLOBAL_CYCLES = 20`
coordinator cycles; and whenever a cycle passes with no agent acting,
starting from an idle counter of zero, the loop — given at least 3
cycles of remaining budget — terminates in the idle-stopped state after
exactly 3 such consecutive idle cycles, with the idle counter at the
threshold 3. -/
theorem run_terminates :
    (∀ (gen : GenOracle) (ps : ProcessState) (req : String),
      (runMultiAgentPipeline gen ps req).cyclesRun ≤ MAX_GLOBAL_CYCLES) ∧
    (∀ (gen : GenOracle) (st : PipelineState), st.idleCycles = 0 →
      (runCycle gen st).2 = [] → ∀ k : Nat,
      runCycles gen (k + 3) st = ⟨{ st with idleCycles := 3 }, 3, true⟩) :=
  ⟨fun gen ps req => runCycles_cyclesRun_le gen MAX_GLOBAL_CYCLES (seedState ps req),
    fun gen st h1 h2 k => runCycles_idle_stop gen st h1 h2 k⟩

theorem run_terminates_witness :
    (runMultiAgentPipeline genEmpty psZeroBudget "x").cyclesRun ≤ MAX_GLOBAL_CYCLES ∧
    runCycles genEmpty 20 (seedState psZeroBudget "x") =
      ⟨{ seedState psZeroBudget "x" with idleCycles := 3 }, 3, true⟩ :=
  ⟨run_terminates.1 genEmpty psZeroBudget "x",
    run_terminates.2 genEmpty (seedState psZeroBudget "x") rfl rfl 17⟩

/-- C5 (amended): during a run, `iterations` is mutated only by the
coordinator — a turn in which the agent does not act leaves the whole
pipeline state unchanged, and a turn in which it acts increments exactly
that agent's counter by one, leaving every other agent's runtime state
untouched — and the counter is monotonically non-decreasing across
cycles.  It is NOT reset at the start of a new pipeline run: the seed
state carries over every agent's runtime state, counter included, from
the ambient process state, so a second run in the same process begins
with the counters the first run left behind. -/
theorem iteration_count_discipline :
    (∀ (gen : GenOracle) (st : PipelineState) (a : AgentName),
      (agentTurn gen st a).2 = none → (agentTurn gen st a).1 = st) ∧
    (∀ (gen : GenOracle) (st : PipelineState) (a : AgentName)
      (ev : BoardMessage × BoardMessage), (agentTurn gen st a).2 = some ev →
      (agentStateOf (agentTurn gen st a).1 a).iterations =
        (agentStateOf st a).iterations + 1 ∧
      ∀ a', a' ≠ a → agentStateOf (agentTurn gen st a).1 a' = agentStateOf st a') ∧
    (∀ (gen : GenOracle) (n : Nat) (st : PipelineState) (a : AgentName),
      (agentStateOf st a).iterations ≤
        (agentStateOf (runCycles gen n st).state a).iterations) ∧
    (∀ (ps : ProcessState) (req : String) (a : AgentName),
      agentStateOf (seedState ps req) a = psAgentStateOf ps a) := by
  refine ⟨agentTurn_none_state, ?_,
    fun gen n st a => runCycles_iter_mono gen n st a,
    fun ps req a => agentStateOf_seed ps req a⟩
  intro gen st a ev hact
  cases hft : findTrigger a st.board st.blackboard (agentStateOf st a) with
  | none => rw [agentTurn_eq_none gen st a hft] at hact; simp at hact
  | some t =>
    by_cases hbud : (agentStateOf st a).maxIterations ≤ (agentStateOf st a).iterations
    · rw [agentTurn_eq_budget gen st a t hft hbud] at hact; simp at hact
    · rw [agentTurn_eq_act gen st a t hft hbud]
      constructor
      · show (agentStateOf (actedState gen st a) a).iterations = _
        rw [actedState_agentStateOf_same]
      · intro a' ha'
        show agentStateOf (actedState gen st a) a' = agentStateOf st a'
        exact actedState_agentStateOf_other gen st a a' ha'

theorem iteration_count_discipline_witness :
    (agentStateOf (agentTurn genEmpty (seedState initialProcessState "one")
        AgentName.uiux).1 AgentName.uiux).iterations =
      (agentStateOf (seedState initialProcessState "one") AgentName.uiux).iterations + 1 :=
  (iteration_count_discipline.2.1 genEmpty (seedState initialProcessState "one")
    AgentName.uiux (m0W, sW) (by decide)).1

/-- C5 (counterexample): the iteration counters are NOT reset to zero at
the start of a new pipeline run.  After a first run under the trivial
oracle, the uiux agent's counter at the seed of the second run is 3, not
0, and in the whole second run no agent ever acts again — its board
stays at the single seeded message — refuting "every agent begins with
iterationCount = 0 and may act again up to its budget". -/
theorem iteration_reset_refuted :
    secondSeed.uiuxState.iterations = 3 ∧
    ¬ secondSeed.uiuxState.iterations = 0 ∧
    (runCycles genEmpty MAX_GLOBAL_CYCLES secondSeed).state.board.length = 1 := by
  decide

/-- C1: for a fresh run (all iteration counters 0) whose budgets are all
at least 1, the first coordinator cycle leaves exactly 4 messages on the
board — the seeded feature request, one uiux-spec, one frontend-plan and
one backend-plan, in this order with consecutive ids — and the recorded
turns show the uiux-spec was triggered on the feature request while both
plans were triggered on the uiux-spec appended earlier in that same
cycle. -/
theorem same_cycle_cascade (gen : GenOracle) (ps : ProcessState) (req : String)
    (m0 s f b : BoardMessage)
    (hfresh : ∀ a, (psAgentStateOf ps a).iterations = 0)
    (hbudget : ∀ a, 1 ≤ (psAgentStateOf ps a).maxIterations)
    (hm0 : m0 = ⟨ps.nextId, MsgAuthor.user, MessageKind.featureRequest, jsTrim req⟩)
    (hs : s = ⟨ps.nextId + 1, MsgAuthor.byAgent AgentName.uiux, MessageKind.uiuxSpec,
      jsTrim (concatFragments (gen AgentName.uiux 0))⟩)
    (hf : f = ⟨ps.nextId + 2, MsgAuthor.byAgent AgentName.frontend,
      MessageKind.frontendPlan, jsTrim (concatFragments (gen AgentName.frontend 0))⟩)
    (hb : b = ⟨ps.nextId + 3, MsgAuthor.byAgent AgentName.backend,
      MessageKind.backendPlan, jsTrim (concatFragments (gen AgentName.backend 0))⟩) :
    (runCycle gen (seedState ps req)).1.board = [m0, s, f, b] ∧
    (runCycle gen (seedState ps req)).2 =
      [(AgentName.uiux, m0, s), (AgentName.frontend, s, f), (AgentName.backend, s, b)] := by
  obtain ⟨n, a1, a2, a3⟩ := ps
  obtain ⟨i1, x1, l1⟩ := a1
  obtain ⟨i2, x2, l2⟩ := a2
  obtain ⟨i3, x3, l3⟩ := a3
  have hi1 : i1 = 0 := hfresh AgentName.uiux
  have hi2 : i2 = 0 := hfresh AgentName.frontend
  have hi3 : i3 = 0 := hfresh AgentName.backend
  subst hi1 hi2 hi3
  subst hm0 hs hf hb
  have hb1 : 1 ≤ x1 := hbudget AgentName.uiux
  have hb2 : 1 ≤ x2 := hbudget AgentName.frontend
  have hb3 : 1 ≤ x3 := hbudget AgentName.backend
  have hx1 : ¬ (agentStateOf (seedState ⟨n, ⟨0, x1, l1⟩, ⟨0, x2, l2⟩, ⟨0, x3, l3⟩⟩ req)
      AgentName.uiux).maxIterations ≤
      (agentStateOf (seedState ⟨n, ⟨0, x1, l1⟩, ⟨0, x2, l2⟩, ⟨0, x3, l3⟩⟩ req)
      AgentName.uiux).iterations := by
    show ¬ x1 ≤ 0; omega
  have e1 := agentTurn_eq_act gen (seedState ⟨n, ⟨0, x1, l1⟩, ⟨0, x2, l2⟩, ⟨0, x3, l3⟩⟩ req)
    AgentName.uiux _ rfl hx1
  have E1 : (agentTurn gen (seedState ⟨n, ⟨0, x1, l1⟩, ⟨0, x2, l2⟩, ⟨0, x3, l3⟩⟩ req)
      AgentName.uiux).1 =
      actedState gen (seedState ⟨n, ⟨0, x1, l1⟩, ⟨0, x2, l2⟩, ⟨0, x3, l3⟩⟩ req)
        AgentName.uiux := by
    rw [e1]
  have hx2 : ¬ (agentStateOf (actedState gen
      (seedState ⟨n, ⟨0, x1, l1⟩, ⟨0, x2, l2⟩, ⟨0, x3, l3⟩⟩ req) AgentName.uiux)
      AgentName.frontend).maxIterations ≤
      (agentStateOf (actedState gen
      (seedState ⟨n, ⟨0, x1, l1⟩, ⟨0, x2, l2⟩, ⟨0, x3, l3⟩⟩ req) AgentName.uiux)
      AgentName.frontend).iterations := by
    show ¬ x2 ≤ 0; omega
  have e2 := agentTurn_eq_act gen (actedState gen
    (seedState ⟨n, ⟨0, x1, l1⟩, ⟨0, x2, l2⟩, ⟨0, x3, l3⟩⟩ req) AgentName.uiux)
    AgentName.frontend _ rfl hx2
  have E2 : (agentTurn gen (agentTurn gen
      (seedState ⟨n, ⟨0, x1, l1⟩, ⟨0, x2, l2⟩, ⟨0, x3, l3⟩⟩ req) AgentName.uiux).1
      AgentName.frontend).1 =
      actedState gen (actedState gen
        (seedState ⟨n, ⟨0, x1, l1⟩, ⟨0, x2, l2⟩, ⟨0, x3, l3⟩⟩ req) AgentName.uiux)
        AgentName.frontend := by
    rw [E1, e2]
  have hx3 : ¬ (agentStateOf (actedState gen (actedState gen
      (seedState ⟨n, ⟨0, x1, l1⟩, ⟨0, x2, l2⟩, ⟨0, x3, l3⟩⟩ req) AgentName.uiux)
      AgentName.frontend) AgentName.backend).maxIterations ≤
      (agentStateOf (actedState gen (actedState gen
      (seedState ⟨n, ⟨0, x1, l1⟩, ⟨0, x2, l2⟩, ⟨0, x3, l3⟩⟩ req) AgentName.uiux)
      AgentName.frontend) AgentName.backend).iterations := by
    show ¬ x3 ≤ 0; omega
  have e3 := agentTurn_eq_act gen (actedState gen (actedState gen
    (seedState ⟨n, ⟨0, x1, l1⟩, ⟨0, x2, l2⟩, ⟨0, x3, l3⟩⟩ req) AgentName.uiux)
    AgentName.frontend) AgentName.backend _ rfl hx3
  have E3 : (agentTurn gen (agentTurn gen (agentTurn gen
      (seedState ⟨n, ⟨0, x1, l1⟩, ⟨0, x2, l2⟩, ⟨0, x3, l3⟩⟩ req) AgentName.uiux).1
      AgentName.frontend).1 AgentName.backend).1 =
      actedState gen (actedState gen (actedState gen
        (seedState ⟨n, ⟨0, x1, l1⟩, ⟨0, x2, l2⟩, ⟨0, x3, l3⟩⟩ req) AgentName.uiux)
        AgentName.frontend) AgentName.backend := by
    rw [E2, e3]
  constructor
  · show (agentTurn gen (agentTurn gen (agentTurn gen
      (seedState ⟨n, ⟨0, x1, l1⟩, ⟨0, x2, l2⟩, ⟨0, x3, l3⟩⟩ req) AgentName.uiux).1
      AgentName.frontend).1 AgentName.backend).1.board = _
    rw [E3]
    rfl
  · show optEvent AgentName.uiux (agentTurn gen
        (seedState ⟨n, ⟨0, x1, l1⟩, ⟨0, x2, l2⟩, ⟨0, x3, l3⟩⟩ req) AgentName.uiux).2 ++
      optEvent AgentName.frontend (agentTurn gen (agentTurn gen
        (seedState ⟨n, ⟨0, x1, l1⟩, ⟨0, x2, l2⟩, ⟨0, x3, l3⟩⟩ req) AgentName.uiux).1
        AgentName.frontend).2 ++
      optEvent AgentName.backend (agentTurn gen (agentTurn gen (agentTurn gen
        (seedState ⟨n, ⟨0, x1, l1⟩, ⟨0, x2, l2⟩, ⟨0, x3, l3⟩⟩ req) AgentName.uiux).1
        AgentName.frontend).1 AgentName.backend).2 = _
    rw [E2, e3, E1, e2, e1]
    rfl

theorem same_cycle_cascade_witness :
    (runCycle genEmpty (seedState initialProcessState "one")).1.board =
      [m0W, sW, fW, bW] ∧
    (runCycle genEmpty (seedState initialProcessState "one")).2 =
      [(AgentName.uiux, m0W, sW), (AgentName.frontend, sW, fW),
        (AgentName.backend, sW, bW)] :=
  same_cycle_cascade genEmpty initialProcessState "one" m0W sW fW bW
    (by intro a; cases a <;> rfl) (by intro a; cases a <;> decide)
    (by decide) (by decide) (by decide) (by decide)

end MultiAgent
